import Mathlib

/-!
Verification of the llmcommit caching / daemon subsystem.

The Python source (`src/llmcommit/model_cache.py`, `src/llmcommit/model_server.py`)
is shallowly embedded below:

* machine integers and hash words are `Nat` with explicit `% 2 ^ 32`;
* `time.time()` readings are passed in explicitly (as `ℚ` for the cache, whose
  freshness comparisons are on real-valued ages, and as integer clock ticks for
  the daemon's elapsed-time field);
* the filesystem state touched by `ModelCache` (the `outputs/` blob directory and
  the metadata mapping) is an explicit record of association lists;
* exceptions are `Except` / `Option` values; a `try/except` becomes a `match`;
* `hashlib.sha256` is the FIPS 180-4 compression function written out over `Nat`,
  and `str.encode()` is the UTF-8 encoder written out over `Char`.
-/

/-! ### Bytes, hex and UTF-8 (the pieces of `hashlib.sha256(content.encode()).hexdigest()`) -/

/-- One hex digit, lower case, as Python's `hexdigest` prints it.  The `% 16`
keeps the definition total; all call sites pass nibbles. -/
def hexDigitChar (n : Nat) : Char :=
  if n % 16 < 10 then Char.ofNat (48 + n % 16) else Char.ofNat (87 + n % 16)

/-- Two lower-case hex characters of one byte. -/
def byteHexChars (b : Nat) : List Char :=
  [hexDigitChar (b / 16), hexDigitChar b]

/-- `bytes.hex()` / `hexdigest`: each byte as two lower-case hex characters. -/
def bytesToHex (bs : List Nat) : String :=
  ⟨bs.flatMap byteHexChars⟩

/-- UTF-8 encoding of one code point (Python `str.encode()` on one character). -/
def utf8Char (c : Char) : List Nat :=
  let n := c.toNat
  if n < 0x80 then [n]
  else if n < 0x800 then [0xC0 + n / 64, 0x80 + n % 64]
  else if n < 0x10000 then [0xE0 + n / 4096, 0x80 + (n / 64) % 64, 0x80 + n % 64]
  else [0xF0 + n / 262144, 0x80 + (n / 4096) % 64, 0x80 + (n / 64) % 64, 0x80 + n % 64]

/-- UTF-8 encoding of a string (`str.encode()`), as a list of byte values. -/
def utf8Bytes (s : String) : List Nat :=
  s.data.flatMap utf8Char

/-! ### SHA-256 (FIPS 180-4, the semantics of `hashlib.sha256`) -/

/-- 32-bit right rotation, on `Nat` reduced mod `2 ^ 32`. -/
def rotr32 (n x : Nat) : Nat :=
  (x / 2 ^ n + (x % 2 ^ n) * 2 ^ (32 - n)) % 2 ^ 32

/-- The eight working variables of the SHA-256 compression function. -/
structure ShaState where
  a : Nat
  b : Nat
  c : Nat
  d : Nat
  e : Nat
  f : Nat
  g : Nat
  h : Nat
deriving Repr, DecidableEq

/-- SHA-256 initial hash value (FIPS 180-4 section 5.3.3, written in decimal). -/
def shaInit : ShaState :=
  ⟨1779033703, 3144134277, 1013904242, 2773480762,
   1359893119, 2600822924, 528734635, 1541459225⟩

/-- SHA-256 round constants (FIPS 180-4 section 4.2.2, written in decimal). -/
def shaK : List Nat :=
  [1116352408, 1899447441, 3049323471, 3921009573, 961987163,
   1508970993, 2453635748, 2870763221, 3624381080, 310598401,
   607225278, 1426881987, 1925078388, 2162078206, 2614888103,
   3248222580, 3835390401, 4022224774, 264347078, 604807628,
   770255983, 1249150122, 1555081692, 1996064986, 2554220882,
   2821834349, 2952996808, 3210313671, 3336571891, 3584528711,
   113926993, 338241895, 666307205, 773529912, 1294757372,
   1396182291, 1695183700, 1986661051, 2177026350, 2456956037,
   2730485921, 2820302411, 3259730800, 3345764771, 3516065817,
   3600352804, 4094571909, 275423344, 430227734, 506948616,
   659060556, 883997877, 958139571, 1322822218, 1537002063,
   1747873779, 1955562222, 2024104815, 2227730452, 2361852424,
   2428436474, 2756734187, 3204031479, 3329325298]

/-- One SHA-256 round: consume one `(k, w)` pair. -/
def shaRound (st : ShaState) (kw : Nat × Nat) : ShaState :=
  let s1 := rotr32 6 st.e ^^^ rotr32 11 st.e ^^^ rotr32 25 st.e
  let ch := (st.e &&& st.f) ^^^ ((st.e ^^^ (2 ^ 32 - 1)) &&& st.g)
  let temp1 := (st.h + s1 + ch + kw.1 + kw.2) % 2 ^ 32
  let s0 := rotr32 2 st.a ^^^ rotr32 13 st.a ^^^ rotr32 22 st.a
  let maj := (st.a &&& st.b) ^^^ (st.a &&& st.c) ^^^ (st.b &&& st.c)
  let temp2 := (s0 + maj) % 2 ^ 32
  ⟨(temp1 + temp2) % 2 ^ 32, st.a, st.b, st.c,
   (st.d + temp1) % 2 ^ 32, st.e, st.f, st.g⟩

/-- Big-endian 32-bit words from a list of bytes. -/
def bytesToWordsBE : List Nat → List Nat
  | b0 :: b1 :: b2 :: b3 :: rest =>
      (b0 * 2 ^ 24 + b1 * 2 ^ 16 + b2 * 2 ^ 8 + b3) :: bytesToWordsBE rest
  | _ => []

/-- The next word of the SHA-256 message schedule, from the words so far. -/
def shaNextWord (ws : List Nat) : Nat :=
  let n := ws.length
  let get := fun i => ws.getD (n - i) 0
  let s0 := rotr32 7 (get 15) ^^^ rotr32 18 (get 15) ^^^ (get 15) / 2 ^ 3
  let s1 := rotr32 17 (get 2) ^^^ rotr32 19 (get 2) ^^^ (get 2) / 2 ^ 10
  (get 16 + s0 + get 7 + s1) % 2 ^ 32

/-- Extend the 16 chunk words by `k` schedule words. -/
def shaExtend (ws : List Nat) : Nat → List Nat
  | 0 => ws
  | k + 1 => shaExtend (ws ++ [shaNextWord ws]) k

/-- Add two SHA-256 states componentwise mod `2 ^ 32`. -/
def shaAdd (x y : ShaState) : ShaState :=
  ⟨(x.a + y.a) % 2 ^ 32, (x.b + y.b) % 2 ^ 32, (x.c + y.c) % 2 ^ 32, (x.d + y.d) % 2 ^ 32,
   (x.e + y.e) % 2 ^ 32, (x.f + y.f) % 2 ^ 32, (x.g + y.g) % 2 ^ 32, (x.h + y.h) % 2 ^ 32⟩

/-- Process one 64-byte chunk. -/
def shaChunk (st : ShaState) (chunk : List Nat) : ShaState :=
  let ws := shaExtend (bytesToWordsBE chunk) 48
  shaAdd st ((shaK.zip ws).foldl shaRound st)

/-- Split a byte list into 64-byte chunks; the fuel (an upper bound on the
number of chunks, structurally decreasing) keeps the recursion kernel-reducible. -/
def chunks64Aux : Nat → List Nat → List (List Nat)
  | 0, _ => []
  | _, [] => []
  | fuel + 1, b :: rest => ((b :: rest).take 64) :: chunks64Aux fuel ((b :: rest).drop 64)

/-- Split a byte list into 64-byte chunks. -/
def chunks64 (l : List Nat) : List (List Nat) :=
  chunks64Aux l.length l

/-- Big-endian bytes of a 64-bit length field. -/
def lenBytesBE (l : Nat) : List Nat :=
  [l / 2 ^ 56 % 256, l / 2 ^ 48 % 256, l / 2 ^ 40 % 256, l / 2 ^ 32 % 256,
   l / 2 ^ 24 % 256, l / 2 ^ 16 % 256, l / 2 ^ 8 % 256, l % 256]

/-- SHA-256 padding: append `0x80`, zeros, and the 64-bit bit length. -/
def shaPad (msg : List Nat) : List Nat :=
  msg ++ 0x80 :: List.replicate ((64 - (msg.length + 9) % 64) % 64) 0
      ++ lenBytesBE (8 * msg.length)

/-- Big-endian bytes of one 32-bit word; the `% 256` keeps each byte bounded. -/
def wordBytesBE (w : Nat) : List Nat :=
  [w / 2 ^ 24 % 256, w / 2 ^ 16 % 256, w / 2 ^ 8 % 256, w % 256]

/-- SHA-256 digest of a byte list, as 32 bytes. -/
def sha256 (msg : List Nat) : List Nat :=
  let fin := (chunks64 (shaPad msg)).foldl shaChunk shaInit
  wordBytesBE fin.a ++ wordBytesBE fin.b ++ wordBytesBE fin.c ++ wordBytesBE fin.d ++
  wordBytesBE fin.e ++ wordBytesBE fin.f ++ wordBytesBE fin.g ++ wordBytesBE fin.h

/-- `hashlib.sha256(s.encode()).hexdigest()`. -/
def sha256Hex (s : String) : String :=
  bytesToHex (sha256 (utf8Bytes s))

/-- FIPS 180-4 test vector, checking the embedding of `hashlib.sha256`. -/
theorem sha256Hex_abc :
    sha256Hex "abc" = "ba7816bf8f01cfea414140de5dae2223b00361a396177a9cb410ff61f20015ad" := by
  decide

/-! ### The `ModelCache` state (`model_cache.py`)

The blob directory `outputs/` (one `<key>.txt` file per cache key, with its
modification time) and the metadata mapping `cache_metadata.json` are explicit
association lists; `time.time()` readings are passed in as `ℚ` values. -/

/-- Look up a key in an association list (first match, as a directory lookup). -/
def alistGet {α : Type} : List (String × α) → String → Option α
  | [], _ => none
  | (k, v) :: rest, q => if k = q then some v else alistGet rest q

/-- Overwrite the binding of a key (writing a file / a `dict` entry). -/
def alistSet {α : Type} (l : List (String × α)) (q : String) (v : α) : List (String × α) :=
  (q, v) :: l.filter (fun p => p.1 != q)

/-- One record of `cache_metadata.json`: `{"model": ..., "timestamp": ..., "diff_size": ...}`. -/
structure MetaRecord where
  model : String
  timestamp : ℚ
  diff_size : Nat
deriving Repr, DecidableEq

/-- The filesystem state a `ModelCache` instance operates on: the `outputs/`
blobs as `key ↦ (mtime, content)` and the metadata mapping `key ↦ record`. -/
structure CacheState where
  outputs : List (String × ℚ × String)
  metadata : List (String × MetaRecord)
deriving Repr, DecidableEq

/-- `ModelCache.get_cache_key`: `sha256(f"{model}:{diff[:500]}".encode()).hexdigest()[:16]`. -/
def get_cache_key (diff model : String) : String :=
  (sha256Hex (model ++ ":" ++ diff.take 500)).take 16

/-- `ModelCache.get_cached_message`: return the blob under the key if it exists
and its age `now - mtime` is under 24 hours (86400 s); otherwise `None`. -/
def get_cached_message (st : CacheState) (now : ℚ) (diff model : String) : Option String :=
  let key := get_cache_key diff model
  match alistGet st.outputs key with
  | some (mtime, content) => if now - mtime < 86400 then some content else none
  | none => none

/-- `ModelCache.save_message`: write the blob (mtime `now`) and upsert the
metadata record `{model, now, len(diff)}`. -/
def save_message (st : CacheState) (now : ℚ) (diff model message : String) : CacheState :=
  let key := get_cache_key diff model
  { outputs := alistSet st.outputs key (now, message)
    metadata := alistSet st.metadata key ⟨model, now, diff.length⟩ }

/-- `ModelCache.clear_old_cache`: with `cutoff = now - days * 86400`, delete the
blobs with `mtime < cutoff` and keep the metadata records with
`timestamp >= cutoff`. -/
def clear_old_cache (st : CacheState) (now : ℚ) (days : Nat) : CacheState :=
  let cutoff := now - days * 86400
  { outputs := st.outputs.filter (fun p => !decide (p.2.1 < cutoff))
    metadata := st.metadata.filter (fun p => decide (cutoff ≤ p.2.timestamp)) }

/-- C1.  `get` after `put` of the same `(diff, model)` pair returns the stored
text while the elapsed time is strictly under 24 hours (86400 s), and returns
`none` as soon as the elapsed time reaches or exceeds 24 hours: the source
keeps an entry only under the strict comparison `age < 86400`, so the boundary
at exactly 24 h falls on the absent side. -/
theorem get_after_put_ttl (st : CacheState) (tPut tGet : ℚ) (diff model text : String) :
    (tGet - tPut < 86400 →
      get_cached_message (save_message st tPut diff model text) tGet diff model = some text) ∧
    (86400 ≤ tGet - tPut →
      get_cached_message (save_message st tPut diff model text) tGet diff model = none) := by
  constructor <;> intro h
  · simp [get_cached_message, save_message, alistSet, alistGet, h]
  · simp [get_cached_message, save_message, alistSet, alistGet, not_lt.mpr h]

/-- Witness for C1 at a concrete state and concrete times (elapsed 3 s, and
elapsed exactly 86400 s). -/
theorem get_after_put_ttl_witness :
    get_cached_message (save_message ⟨[], []⟩ 0 "d" "m" "t") 3 "d" "m" = some "t" ∧
    get_cached_message (save_message ⟨[], []⟩ 0 "d" "m" "t") 86400 "d" "m" = none :=
  ⟨(get_after_put_ttl ⟨[], []⟩ 0 3 "d" "m" "t").1 (by norm_num),
   (get_after_put_ttl ⟨[], []⟩ 0 86400 "d" "m" "t").2 (by norm_num)⟩

/-- C3.  The cache key is the first 16 hex characters of the SHA-256 digest of
`model ++ ":" ++ diff[:500]`, hence a pure function of the model and the first
500 characters of the diff: diffs agreeing on their first 500 characters get
the same key and the same cached lookup result. -/
theorem cache_key_prefix_spec :
    (∀ diff model, get_cache_key diff model =
        (sha256Hex (model ++ ":" ++ diff.take 500)).take 16) ∧
    (∀ d1 d2 model, d1.take 500 = d2.take 500 →
        get_cache_key d1 model = get_cache_key d2 model) ∧
    (∀ d1 d2 model (st : CacheState) (now : ℚ), d1.take 500 = d2.take 500 →
        get_cached_message st now d1 model = get_cached_message st now d2 model) := by
  refine ⟨fun _ _ => rfl, fun d1 d2 model h => by rw [get_cache_key, h, get_cache_key], ?_⟩
  intro d1 d2 model st now h
  rw [get_cached_message, get_cached_message, get_cache_key, h, get_cache_key]

/-- Witness for C3: two concrete 501-character diffs that agree on their first
500 characters yield the same cache key. -/
theorem cache_key_prefix_spec_witness :
    get_cache_key ⟨List.replicate 500 'x' ++ ['a']⟩ "m" =
      get_cache_key ⟨List.replicate 500 'x' ++ ['b']⟩ "m" :=
  cache_key_prefix_spec.2.1 _ _ "m" (by
    apply String.ext
    rw [String.data_take, String.data_take]
    show (List.replicate 500 'x' ++ ['a']).take 500 = (List.replicate 500 'x' ++ ['b']).take 500
    rw [List.take_left' (by rw [List.length_replicate]),
      List.take_left' (by rw [List.length_replicate])])

/-- Filtering two lists whose images under `g1`, `g2` agree, by a predicate on
the image, preserves the agreement of the images. -/
theorem map_filter_congr {A B C : Type} (g1 : A → C) (g2 : B → C) (p : C → Bool) :
    ∀ (l1 : List A) (l2 : List B), l1.map g1 = l2.map g2 →
      (l1.filter (fun a => p (g1 a))).map g1 = (l2.filter (fun b => p (g2 b))).map g2 := by
  intro l1
  induction l1 with
  | nil =>
    intro l2 h
    cases l2 with
    | nil => simp
    | cons b t2 => simp at h
  | cons a t ih =>
    intro l2 h
    cases l2 with
    | nil => simp at h
    | cons b t2 =>
      simp only [List.map_cons, List.cons.injEq] at h
      obtain ⟨h1, h2⟩ := h
      simp only [List.filter_cons, h1]
      cases hp : p (g2 b) <;> simp [ih t2 h2, h1]

/-- C2 (amended).  `clearOlderThan(days)` keeps exactly the blobs whose age is
at most `days * 86400` — i.e. it deletes exactly the blobs whose age is
*strictly greater* than `days*24h` (the source deletes on `mtime < cutoff`, so
a blob aged exactly `days*24h` survives) — prunes the metadata records by the
same cutoff, and when metadata and blobs are in sync beforehand (same keys,
record timestamps equal to blob mtimes) they are still in sync afterwards: the
metadata holds exactly the records of the blobs that remain. -/
theorem clear_old_cache_spec (st : CacheState) (now : ℚ) (days : Nat) :
    (∀ (k : String) (m : ℚ) (c : String),
      (k, m, c) ∈ (clear_old_cache st now days).outputs ↔
        (k, m, c) ∈ st.outputs ∧ now - m ≤ days * 86400) ∧
    (∀ (k : String) (r : MetaRecord),
      (k, r) ∈ (clear_old_cache st now days).metadata ↔
        (k, r) ∈ st.metadata ∧ now - r.timestamp ≤ days * 86400) ∧
    (st.metadata.map (fun p => (p.1, p.2.timestamp)) = st.outputs.map (fun p => (p.1, p.2.1)) →
      (clear_old_cache st now days).metadata.map (fun p => (p.1, p.2.timestamp)) =
        (clear_old_cache st now days).outputs.map (fun p => (p.1, p.2.1))) := by
  refine ⟨?_, ?_, ?_⟩
  · intro k m c
    simp only [clear_old_cache, List.mem_filter, Bool.not_eq_true', decide_eq_false_iff_not,
      not_lt]
    exact and_congr_right fun _ => by constructor <;> intro <;> linarith
  · intro k r
    simp only [clear_old_cache, List.mem_filter, decide_eq_true_eq]
    exact and_congr_right fun _ => by constructor <;> intro <;> linarith
  · intro hsync
    have hflt : (clear_old_cache st now days).outputs =
        st.outputs.filter (fun p => decide (now - days * 86400 ≤ p.2.1)) := by
      simp only [clear_old_cache]
      exact List.filter_congr fun x _ => by
        rw [← decide_not, decide_eq_decide]
        exact not_lt
    rw [hflt]
    simp only [clear_old_cache]
    exact map_filter_congr (C := String × ℚ)
      (fun p => (p.1, p.2.timestamp)) (fun p => (p.1, p.2.1))
      (fun c => decide (now - days * 86400 ≤ c.2)) st.metadata st.outputs hsync

/-- Counterexample to C2 as stated: a blob whose age is *exactly* `days*24h`
(here `days = 1`, blob mtime `0`, current time `86400`) is **not** deleted by
`clear_old_cache`, although the claim requires every blob with age
`≥ days*24h` to be removed. -/
theorem clear_old_cache_boundary_counterexample :
    (clear_old_cache ⟨[("k", 0, "t")], [("k", ⟨"mod", 0, 1⟩)]⟩ 86400 1).outputs
        = [("k", 0, "t")] ∧
    (86400 : ℚ) - 0 ≥ (1 : Nat) * 86400 := by
  constructor
  · norm_num [clear_old_cache]
  · norm_num

/-- Witness for C2 (amended), on a concrete state holding one stale blob
(age 100000 s > 86400 s) and one fresh blob (age 50000 s): metadata and blobs
remain in sync after `clear_old_cache`. -/
theorem clear_old_cache_spec_witness :
    (clear_old_cache ⟨[("a", 0, "x"), ("b", 50000, "y")],
        [("a", ⟨"m", 0, 1⟩), ("b", ⟨"m", 50000, 1⟩)]⟩ 100000 1).metadata.map
        (fun p => (p.1, p.2.timestamp)) =
      (clear_old_cache ⟨[("a", 0, "x"), ("b", 50000, "y")],
        [("a", ⟨"m", 0, 1⟩), ("b", ⟨"m", 50000, 1⟩)]⟩ 100000 1).outputs.map
        (fun p => (p.1, p.2.1)) :=
  (clear_old_cache_spec ⟨[("a", 0, "x"), ("b", 50000, "y")],
      [("a", ⟨"m", 0, 1⟩), ("b", ⟨"m", 50000, 1⟩)]⟩ 100000 1).2.2 (by norm_num)

/-! ### C4: key separation between models

The key keeps 16 hex characters, i.e. 64 bits, of the digest, so the map from
model identifiers to keys cannot be injective; what does hold is that distinct
models always hash *distinct inputs*. -/

/-- Little-endian numeric value of a byte list. -/
def natOfBytesLE : List Nat → Nat
  | [] => 0
  | b :: r => b + 256 * natOfBytesLE r

theorem natOfBytesLE_lt : ∀ (l : List Nat), (∀ b ∈ l, b < 256) →
    natOfBytesLE l < 256 ^ l.length := by
  intro l
  induction l with
  | nil => intro _; simp [natOfBytesLE]
  | cons b r ih =>
    intro h
    have hb : b < 256 := h b (List.mem_cons_self b r)
    have hr : natOfBytesLE r < 256 ^ r.length := ih fun x hx => h x (List.mem_cons_of_mem _ hx)
    simp only [natOfBytesLE, List.length_cons, pow_succ]
    calc b + 256 * natOfBytesLE r < 256 + 256 * natOfBytesLE r := by omega
    _ ≤ 256 * (natOfBytesLE r + 1) := by ring_nf; omega
    _ ≤ 256 * 256 ^ r.length := by
        have : natOfBytesLE r + 1 ≤ 256 ^ r.length := hr
        exact Nat.mul_le_mul_left 256 this
    _ = 256 ^ r.length * 256 := by ring

theorem natOfBytesLE_inj : ∀ (l1 l2 : List Nat), l1.length = l2.length →
    (∀ b ∈ l1, b < 256) → (∀ b ∈ l2, b < 256) →
    natOfBytesLE l1 = natOfBytesLE l2 → l1 = l2 := by
  intro l1
  induction l1 with
  | nil =>
    intro l2 hlen _ _ _
    cases l2 with
    | nil => rfl
    | cons b t => simp at hlen
  | cons b1 t1 ih =>
    intro l2 hlen h1 h2 hv
    cases l2 with
    | nil => simp at hlen
    | cons b2 t2 =>
      have hb1 : b1 < 256 := h1 b1 (List.mem_cons_self _ _)
      have hb2 : b2 < 256 := h2 b2 (List.mem_cons_self _ _)
      simp only [natOfBytesLE] at hv
      have hbeq : b1 = b2 := by omega
      have hteq : natOfBytesLE t1 = natOfBytesLE t2 := by omega
      have := ih t2 (by simpa using hlen)
        (fun x hx => h1 x (List.mem_cons_of_mem _ hx))
        (fun x hx => h2 x (List.mem_cons_of_mem _ hx)) hteq
      rw [hbeq, this]

theorem sha256_length (m : List Nat) : (sha256 m).length = 32 := by
  simp [sha256, wordBytesBE]

theorem sha256_bytes_lt (m : List Nat) : ∀ b ∈ sha256 m, b < 256 := by
  intro b hb
  simp only [sha256, wordBytesBE, List.mem_append, List.mem_cons, List.not_mem_nil,
    or_false] at hb
  omega

/-- Taking `2 * k` characters of a concatenation of 2-character blocks is
determined by the first `k` blocks. -/
theorem take_flatMap_pairs (f : Nat → List Char) (hf : ∀ b, (f b).length = 2) :
    ∀ (k : Nat) (bs1 bs2 : List Nat), bs1.take k = bs2.take k →
      (bs1.flatMap f).take (2 * k) = (bs2.flatMap f).take (2 * k) := by
  intro k
  induction k with
  | zero => intro bs1 bs2 _; simp
  | succ k ih =>
    intro bs1 bs2 h
    cases bs1 with
    | nil =>
      cases bs2 with
      | nil => rfl
      | cons b2 t2 => simp [List.take_succ_cons] at h
    | cons b1 t1 =>
      cases bs2 with
      | nil => simp [List.take_succ_cons] at h
      | cons b2 t2 =>
        simp only [List.take_succ_cons, List.cons.injEq] at h
        obtain ⟨hb, ht⟩ := h
        subst hb
        simp only [List.flatMap_cons]
        rw [List.take_append_eq_append_take, List.take_append_eq_append_take]
        have hidx : 2 * (k + 1) - (f b1).length = 2 * k := by rw [hf]; omega
        rw [hidx, ih t1 t2 ht]

/-- The first 8 digest bytes behind a cache key. -/
def keyBytes8 (diff model : String) : List Nat :=
  (sha256 (utf8Bytes (model ++ ":" ++ diff.take 500))).take 8

theorem keyBytes8_length (d m : String) : (keyBytes8 d m).length = 8 := by
  simp [keyBytes8, sha256_length]

theorem keyBytes8_bytes_lt (d m : String) : ∀ b ∈ keyBytes8 d m, b < 256 :=
  fun b hb => sha256_bytes_lt _ b (List.take_subset _ _ hb)

/-- Two models whose digests agree on their first 8 bytes get the same key. -/
theorem cache_key_eq_of_digest_prefix (d m1 m2 : String)
    (h : keyBytes8 d m1 = keyBytes8 d m2) :
    get_cache_key d m1 = get_cache_key d m2 := by
  apply String.ext
  rw [get_cache_key, get_cache_key, String.data_take, String.data_take]
  show (bytesToHex (sha256 (utf8Bytes (m1 ++ ":" ++ d.take 500)))).data.take 16 = _
  rw [show (16 : Nat) = 2 * 8 by norm_num]
  exact take_flatMap_pairs byteHexChars (fun _ => rfl) 8 _ _ h

/-- Counterexample to C4 as stated: the key keeps only 64 bits of the digest,
so by pigeonhole there exist two distinct model identifiers that receive the
same cache key for the same diff; "different models force different keys" is
false as a universal statement. -/
theorem cache_key_model_injectivity_counterexample :
    ¬ (∀ m1 m2 diff : String, m1 ≠ m2 →
        get_cache_key diff m1 ≠ get_cache_key diff m2) := by
  intro hclaim
  have hbound : ∀ i : Fin (2 ^ 64 + 1),
      natOfBytesLE (keyBytes8 "" ⟨List.replicate i.1 'a'⟩) < 2 ^ 64 := by
    intro i
    have hlt := natOfBytesLE_lt (keyBytes8 "" ⟨List.replicate i.1 'a'⟩)
      (keyBytes8_bytes_lt _ _)
    rw [keyBytes8_length] at hlt
    calc natOfBytesLE _ < 256 ^ 8 := hlt
    _ = 2 ^ 64 := by norm_num
  obtain ⟨i, j, hij, heq⟩ := Fintype.exists_ne_map_eq_of_card_lt
    (fun i : Fin (2 ^ 64 + 1) =>
      (⟨natOfBytesLE (keyBytes8 "" ⟨List.replicate i.1 'a'⟩), hbound i⟩ : Fin (2 ^ 64)))
    (by simp only [Fintype.card_fin]; exact Nat.lt_succ_self _)
  simp only [Fin.mk.injEq] at heq
  have hbytes : keyBytes8 "" ⟨List.replicate i.1 'a'⟩ = keyBytes8 "" ⟨List.replicate j.1 'a'⟩ :=
    natOfBytesLE_inj _ _ (by rw [keyBytes8_length, keyBytes8_length])
      (keyBytes8_bytes_lt _ _) (keyBytes8_bytes_lt _ _) heq
  have hkeys := cache_key_eq_of_digest_prefix "" _ _ hbytes
  have hmodels : (⟨List.replicate i.1 'a'⟩ : String) ≠ ⟨List.replicate j.1 'a'⟩ := by
    intro hm
    apply hij
    have : List.replicate i.1 'a' = List.replicate j.1 'a' := congrArg String.data hm
    have : i.1 = j.1 := by
      have h1 := congrArg List.length this
      simpa using h1
    exact Fin.ext this
  exact hclaim _ _ "" hmodels hkeys

/-- C4 (amended).  Distinct model identifiers always produce distinct digest
*inputs* (`model ++ ":" ++ diff[:500]`), so two distinct models can only share
a cache key through a collision of the 16-hex-character (64-bit) truncation of
SHA-256 on distinct strings — key separation holds exactly up to truncated-hash
collisions, which must exist by pigeonhole. -/
theorem cache_key_model_separation (m1 m2 diff : String) (h : m1 ≠ m2) :
    (m1 ++ ":" ++ diff.take 500 ≠ m2 ++ ":" ++ diff.take 500) ∧
    (get_cache_key diff m1 = get_cache_key diff m2 →
      ∃ s1 s2 : String, s1 ≠ s2 ∧ (sha256Hex s1).take 16 = (sha256Hex s2).take 16) := by
  have hinput : m1 ++ ":" ++ diff.take 500 ≠ m2 ++ ":" ++ diff.take 500 := by
    intro he
    apply h
    apply String.ext
    have hd : (m1 ++ ":" ++ diff.take 500).data = (m2 ++ ":" ++ diff.take 500).data :=
      congrArg String.data he
    simp only [String.data_append] at hd
    exact List.append_cancel_right (List.append_cancel_right hd)
  exact ⟨hinput, fun hk =>
    ⟨m1 ++ ":" ++ diff.take 500, m2 ++ ":" ++ diff.take 500, hinput, hk⟩⟩

/-- Witness for C4 (amended) at two concrete distinct models. -/
theorem cache_key_model_separation_witness :
    "m1" ++ ":" ++ String.take "d" 500 ≠ "m2" ++ ":" ++ String.take "d" 500 :=
  (cache_key_model_separation "m1" "m2" "d" (by decide)).1

/-! ### C8: corruption tolerance of metadata and model-info files

A JSON file on disk, as `json.loads` sees it, is either missing, unparsable
(`json.loads` raises, the `except` branch runs), or parses to a value. -/

/-- On-disk content of one JSON file. -/
inductive DiskJson (α : Type) where
  | absent
  | corrupt
  | parsed (value : α)
deriving Repr, DecidableEq

/-- `ModelCache._load_metadata`: missing file or unparsable JSON degrade to the
empty mapping (the `except` branch returns `{}`); a parsable file is returned. -/
def load_metadata (file : DiskJson (List (String × MetaRecord))) : List (String × MetaRecord) :=
  match file with
  | .absent => []
  | .corrupt => []
  | .parsed m => m

/-- `model_name.replace("/", "--")`: the pattern is the single character `/`,
so the replacement is per-character substitution. -/
def modelKeySafe (s : String) : String :=
  ⟨s.data.flatMap (fun c => if c = '/' then ['-', '-'] else [c])⟩

/-- `ModelCache.get_model_info`: look up `models/<model_name.replace("/","--")>.json`;
a missing or unparsable file yields `None` (the `except` branch is `pass`). -/
def get_model_info {α : Type} (models_dir : List (String × DiskJson α))
    (model_name : String) : Option α :=
  let model_key := modelKeySafe model_name
  match alistGet models_dir (model_key ++ ".json") with
  | none => none
  | some .absent => none
  | some .corrupt => none
  | some (.parsed i) => some i

/-- C8.  Corruption never surfaces: a missing or unparsable metadata file loads
as the empty mapping (and a parsable one as its contents), and a missing or
unparsable per-model info file makes `get_model_info` return `none`; both
operations are total functions of the disk state, so no exception escapes. -/
theorem cache_corruption_tolerance :
    (load_metadata .absent = [] ∧ load_metadata .corrupt = []) ∧
    (∀ m : List (String × MetaRecord), load_metadata (.parsed m) = m) ∧
    (∀ (α : Type) (dir : List (String × DiskJson α)) (name : String),
      (alistGet dir (modelKeySafe name ++ ".json") = none ∨
       alistGet dir (modelKeySafe name ++ ".json") = some .absent ∨
       alistGet dir (modelKeySafe name ++ ".json") = some .corrupt) →
      get_model_info dir name = none) := by
  refine ⟨⟨rfl, rfl⟩, fun m => rfl, ?_⟩
  intro α dir name h
  rcases h with h | h | h <;> simp [get_model_info, h]

/-- Witness for C8 on a concrete directory holding one corrupt info file. -/
theorem cache_corruption_tolerance_witness :
    get_model_info [("m.json", (DiskJson.corrupt : DiskJson Nat))] "m" = none :=
  cache_corruption_tolerance.2.2 Nat [("m.json", DiskJson.corrupt)] "m"
    (Or.inr (Or.inr (by rfl)))

/-! ### C10: an empty cached message is treated as a miss

`CachedLLMClient.generate_commit_message` guards the hit path with Python
truthiness (`if cached:`), under which the empty string is false. -/

/-- Python truthiness of `Optional[str]`: `None` and `""` are falsy. -/
def truthyStr : Option String → Bool
  | none => false
  | some s => s != ""

/-- `CachedLLMClient.generate_commit_message`: return the cached message when
the lookup result is truthy; otherwise call the engine and save its output.
The lazily constructed underlying client is the `engine` parameter. -/
def CachedLLMClient.generate_commit_message (engine : String → String) (st : CacheState)
    (now : ℚ) (model diff : String) : String × CacheState :=
  let cached := get_cached_message st now diff model
  if truthyStr cached then
    (cached.getD "", st)
  else
    let message := engine diff
    (message, save_message st now diff model message)

/-- C10.  When the fresh cached blob holds the empty string, the client ignores
the hit (the `if cached:` guard is false on `""`), calls the engine, and
overwrites the cache entry with the regenerated message. -/
theorem empty_cached_message_is_miss (engine : String → String) (st : CacheState)
    (now : ℚ) (model diff : String)
    (h : get_cached_message st now diff model = some "") :
    CachedLLMClient.generate_commit_message engine st now model diff =
      (engine diff, save_message st now diff model (engine diff)) := by
  simp [CachedLLMClient.generate_commit_message, h, truthyStr]

/-- Witness for C10: a concrete state whose fresh blob for `("d", "m")` is the
empty string makes the client regenerate via the engine and overwrite. -/
theorem empty_cached_message_is_miss_witness :
    CachedLLMClient.generate_commit_message (fun _ => "fresh")
        (save_message ⟨[], []⟩ 0 "d" "m" "") 3 "m" "d" =
      ("fresh", save_message (save_message ⟨[], []⟩ 0 "d" "m" "") 3 "d" "m" "fresh") :=
  empty_cached_message_is_miss (fun _ => "fresh") (save_message ⟨[], []⟩ 0 "d" "m" "") 3 "m" "d"
    (by norm_num [get_cached_message, save_message, alistSet, alistGet])

/-! ### The JSON wire values of the daemon protocol (`model_server.py`)

The protocol only ever carries flat JSON objects whose values are strings and
numbers (`{"diff": ...}`, `{"message": ..., "elapsed": ...}`, `{"error": ...}`),
so the embedding models `json.dumps` / `json.loads` on that fragment: the
parser accepts a strict subset of JSON (flat objects, string and integer
values, no duplicate keys, standard escapes, non-surrogate `\u`), agreeing
with `json.loads` wherever it succeeds.  Clock readings around the engine call
are integer ticks, so `elapsed` is an integer number. -/

/-- The two scalar JSON value forms the protocol uses. -/
inductive JVal where
  | str (s : String)
  | num (n : Int)
deriving Repr, DecidableEq

/-- A flat JSON object, as an ordered field list. -/
abbrev JObj := List (String × JVal)

/-- `c` is an ASCII decimal digit. -/
def isDigitChar (c : Char) : Bool :=
  48 ≤ c.toNat && c.toNat ≤ 57

/-- JSON insignificant whitespace (space, tab, newline, carriage return). -/
def jsonWs (c : Char) : Bool :=
  c.toNat == 32 || c.toNat == 9 || c.toNat == 10 || c.toNat == 13

/-- ASCII whitespace stripped by Python's `str.strip()`. -/
def pyWs (c : Char) : Bool :=
  c.toNat == 32 || c.toNat == 9 || c.toNat == 10 || c.toNat == 13 ||
    c.toNat == 11 || c.toNat == 12

/-- `str.strip()`: remove leading and trailing whitespace. -/
def pyStrip (s : String) : String :=
  ⟨((s.data.dropWhile pyWs).reverse.dropWhile pyWs).reverse⟩

/-- The `{` character (written numerically). -/
def lbrace : Char := Char.ofNat 123

/-- The `}` character (written numerically). -/
def rbrace : Char := Char.ofNat 125

/-- One decimal digit character. -/
def digitChar10 (n : Nat) : Char := Char.ofNat (48 + n % 10)

/-- Decimal digits of a number, most significant first; the structurally
decreasing fuel keeps the definition kernel-reducible. -/
def natDigitsAux : Nat → Nat → List Char
  | 0, _ => []
  | fuel + 1, n => if n < 10 then [digitChar10 n] else natDigitsAux fuel (n / 10) ++ [digitChar10 n]

/-- Decimal digits of `n`, most significant first (`natDigits 0 = "0"`). -/
def natDigits (n : Nat) : List Char := natDigitsAux (n + 1) n

/-- Decimal characters of an integer, `str(int)` / `json.dumps` style. -/
def intToChars (n : Int) : List Char :=
  if n < 0 then '-' :: natDigits n.natAbs else natDigits n.toNat

/-- `str(n)` for an integer. -/
def intToString (n : Int) : String := ⟨intToChars n⟩

/-- JSON escaping of one character (`"` and `\` escaped, control characters as
`\u00XX`, everything else literal). -/
def escapeChar (c : Char) : List Char :=
  if c = '"' then ['\\', '"']
  else if c = '\\' then ['\\', '\\']
  else if c.toNat < 32 then ['\\', 'u', '0', '0', hexDigitChar (c.toNat / 16), hexDigitChar c.toNat]
  else [c]

/-- JSON string literal of `s`, quotes included. -/
def dumpStr (s : String) : List Char :=
  '"' :: s.data.flatMap escapeChar ++ ['"']

/-- Serialize one scalar value. -/
def dumpJVal : JVal → List Char
  | .str s => dumpStr s
  | .num n => intToChars n

/-- Serialize the fields of an object with `json.dumps`'s default separators
(`", "` between fields, `": "` after a key). -/
def dumpFields : JObj → List Char
  | [] => []
  | (k, v) :: rest =>
    dumpStr k ++ ':' :: ' ' :: (dumpJVal v ++
      (match rest with
       | [] => []
       | _ :: _ => ',' :: ' ' :: dumpFields rest))

/-- `json.dumps` of a flat object. -/
def json_dumps (o : JObj) : String :=
  ⟨lbrace :: dumpFields o ++ [rbrace]⟩

/-- Drop insignificant whitespace. -/
def skipWs (l : List Char) : List Char := l.dropWhile jsonWs

/-- Value of one hex digit character. -/
def hexVal (c : Char) : Nat :=
  if c.toNat ≤ 57 then c.toNat - 48
  else if c.toNat ≤ 70 then c.toNat - 55
  else c.toNat - 87

/-- `c` is a hex digit. -/
def isHexChar (c : Char) : Bool :=
  (48 ≤ c.toNat && c.toNat ≤ 57) || (97 ≤ c.toNat && c.toNat ≤ 102) ||
    (65 ≤ c.toNat && c.toNat ≤ 70)

/-- Resolve one single-character escape. -/
def unescapeChar (e : Char) : Option Char :=
  if e = '"' then some '"'
  else if e = '\\' then some '\\'
  else if e = '/' then some '/'
  else if e = 'b' then some (Char.ofNat 8)
  else if e = 'f' then some (Char.ofNat 12)
  else if e = 'n' then some '\n'
  else if e = 'r' then some '\r'
  else if e = 't' then some '\t'
  else none

/-- Parse the body of a JSON string literal (after the opening quote), up to
and including the closing quote; returns the decoded characters and the rest.
Unescaped control characters are rejected (`json.loads` strict mode), and
`\u` escapes in the surrogate range are unsupported by the model. -/
def parseStringBody : List Char → Option (List Char × List Char)
  | [] => none
  | c :: rest =>
    if c = '"' then some ([], rest)
    else if c = '\\' then
      match rest with
      | 'u' :: h1 :: h2 :: h3 :: h4 :: rest2 =>
        if isHexChar h1 && isHexChar h2 && isHexChar h3 && isHexChar h4 then
          let v := hexVal h1 * 4096 + hexVal h2 * 256 + hexVal h3 * 16 + hexVal h4
          if 0xD800 ≤ v ∧ v < 0xE000 then none
          else
            match parseStringBody rest2 with
            | some (cs, r) => some (Char.ofNat v :: cs, r)
            | none => none
        else none
      | e :: rest2 =>
        match unescapeChar e with
        | some c2 =>
          match parseStringBody rest2 with
          | some (cs, r) => some (c2 :: cs, r)
          | none => none
        | none => none
      | [] => none
    else if c.toNat < 32 then none
    else
      match parseStringBody rest with
      | some (cs, r) => some (c :: cs, r)
      | none => none

/-- Consume a run of decimal digits, folding them onto `acc`. -/
def parseDigitsRun : Nat → List Char → Nat × List Char
  | acc, [] => (acc, [])
  | acc, c :: rest =>
    if isDigitChar c then parseDigitsRun (acc * 10 + (c.toNat - 48)) rest else (acc, c :: rest)

/-- Parse a JSON natural number (no leading zeros, as in the JSON grammar). -/
def parseJsonNat : List Char → Option (Nat × List Char)
  | [] => none
  | c :: rest =>
    if c = '0' then
      match rest with
      | d :: _ => if isDigitChar d then none else some (0, rest)
      | [] => some (0, [])
    else if isDigitChar c then some (parseDigitsRun (c.toNat - 48) rest)
    else none

/-- Parse a JSON integer (optional minus sign). -/
def parseJsonInt (l : List Char) : Option (Int × List Char) :=
  match l with
  | [] => none
  | c :: rest =>
    if c = '-' then
      match parseJsonNat rest with
      | some (n, r) => some (-(n : Int), r)
      | none => none
    else
      match parseJsonNat (c :: rest) with
      | some (n, r) => some ((n : Int), r)
      | none => none

/-- Parse one scalar value (string or integer). -/
def parseJVal (l : List Char) : Option (JVal × List Char) :=
  match l with
  | [] => none
  | c :: rest =>
    if c = '"' then
      match parseStringBody rest with
      | some (cs, r) => some (.str ⟨cs⟩, r)
      | none => none
    else
      match parseJsonInt (c :: rest) with
      | some (n, r) => some (.num n, r)
      | none => none

/-- Parse the fields of an object, positioned at the start of a key; `fuel`
bounds the number of fields and keeps the recursion structural.  Objects with
duplicate keys are unsupported by the model (rejected). -/
def parseFieldsAux : Nat → List Char → JObj → Option (JObj × List Char)
  | 0, _, _ => none
  | fuel + 1, l, acc =>
    match l with
    | [] => none
    | c0 :: rest =>
      if c0 = '"' then
        match parseStringBody rest with
        | none => none
        | some (kcs, r1) =>
          let key : String := ⟨kcs⟩
          if (acc.map Prod.fst).contains key then none
          else
            match skipWs r1 with
            | [] => none
            | c2 :: r2 =>
              if c2 = ':' then
                match parseJVal (skipWs r2) with
                | none => none
                | some (v, r3) =>
                  match skipWs r3 with
                  | c3 :: r4 =>
                    if c3 = ',' then parseFieldsAux fuel (skipWs r4) (acc ++ [(key, v)])
                    else if c3 = rbrace then some (acc ++ [(key, v)], r4)
                    else none
                  | [] => none
              else none
      else none

/-- Parse a flat object, leading whitespace allowed. -/
def parseObj (l : List Char) : Option (JObj × List Char) :=
  match skipWs l with
  | c :: rest =>
    if c = lbrace then
      match skipWs rest with
      | c2 :: _ =>
        if c2 = rbrace then some ([], (skipWs rest).tail)
        else parseFieldsAux (rest.length + 1) (skipWs rest) []
      | [] => none
    else none
  | [] => none

/-- `json.loads` on the protocol fragment: a single flat object with nothing
but whitespace after it. -/
def json_loads (s : String) : Except String JObj :=
  match parseObj s.data with
  | some (o, rest) => if (skipWs rest).isEmpty then .ok o else .error "Extra data"
  | none => .error "Expecting value"

/-! ### Round-trip facts: the parser recovers what the serializer emits -/

theorem hexDigitChar_mod (n : Nat) : hexDigitChar n = hexDigitChar (n % 16) := by
  simp [hexDigitChar, Nat.mod_mod_of_dvd n dvd_rfl]

theorem isHexChar_hexDigitChar (n : Nat) : isHexChar (hexDigitChar n) = true := by
  rw [hexDigitChar_mod]
  have h : n % 16 < 16 := Nat.mod_lt _ (by norm_num)
  revert h
  generalize n % 16 = m
  revert m
  decide

theorem hexVal_hexDigitChar (n : Nat) : hexVal (hexDigitChar n) = n % 16 := by
  rw [hexDigitChar_mod]
  have h : n % 16 < 16 := Nat.mod_lt _ (by norm_num)
  revert h
  generalize n % 16 = m
  revert m
  decide

theorem ne_quote_of_lt32 (c : Char) (h : c.toNat < 32) : c ≠ '"' := by
  intro he; subst he; simp at h

theorem ne_backslash_of_lt32 (c : Char) (h : c.toNat < 32) : c ≠ '\\' := by
  intro he; subst he; simp at h

theorem psb_quote_eq (l : List Char) : parseStringBody ('"' :: l) = some ([], l) := by
  rw [parseStringBody.eq_def]; rfl

theorem psb_escaped_quote (l : List Char) : parseStringBody ('\\' :: '"' :: l) =
    (match parseStringBody l with
     | some (cs, r) => some ('"' :: cs, r)
     | none => none) := by
  rw [parseStringBody.eq_def]; rfl

theorem psb_escaped_backslash (l : List Char) : parseStringBody ('\\' :: '\\' :: l) =
    (match parseStringBody l with
     | some (cs, r) => some ('\\' :: cs, r)
     | none => none) := by
  rw [parseStringBody.eq_def]; rfl

theorem psb_unicode (x y : Char) (l : List Char) :
    parseStringBody ('\\' :: 'u' :: '0' :: '0' :: x :: y :: l) =
    (if isHexChar '0' && isHexChar '0' && isHexChar x && isHexChar y then
      if 0xD800 ≤ hexVal '0' * 4096 + hexVal '0' * 256 + hexVal x * 16 + hexVal y ∧
          hexVal '0' * 4096 + hexVal '0' * 256 + hexVal x * 16 + hexVal y < 0xE000 then none
      else
        match parseStringBody l with
        | some (cs, r) =>
          some (Char.ofNat (hexVal '0' * 4096 + hexVal '0' * 256 + hexVal x * 16 + hexVal y) :: cs, r)
        | none => none
     else none) := by
  rw [parseStringBody.eq_def]; rfl

theorem psb_plain (c : Char) (h1 : c ≠ '"') (h2 : c ≠ '\\') (h3 : ¬ c.toNat < 32)
    (l : List Char) : parseStringBody (c :: l) =
    (match parseStringBody l with
     | some (cs, r) => some (c :: cs, r)
     | none => none) := by
  rw [parseStringBody.eq_def]
  simp only [if_neg h1, if_neg h2, if_neg h3]

theorem parseStringBody_escape : ∀ (cs rest : List Char),
    parseStringBody (cs.flatMap escapeChar ++ '"' :: rest) = some (cs, rest) := by
  intro cs
  induction cs with
  | nil => intro rest; exact psb_quote_eq rest
  | cons c cs ih =>
    intro rest
    show parseStringBody ((escapeChar c ++ cs.flatMap escapeChar) ++ '"' :: rest) =
      some (c :: cs, rest)
    by_cases h1 : c = '"'
    · subst h1
      have he : escapeChar '"' = ['\\', '"'] := rfl
      rw [he]
      simp only [List.cons_append, List.nil_append]
      rw [psb_escaped_quote, ih rest]
    · by_cases h2 : c = '\\'
      · subst h2
        have he : escapeChar '\\' = ['\\', '\\'] := rfl
        rw [he]
        simp only [List.cons_append, List.nil_append]
        rw [psb_escaped_backslash, ih rest]
      · by_cases h3 : c.toNat < 32
        · have he : escapeChar c =
              ['\\', 'u', '0', '0', hexDigitChar (c.toNat / 16), hexDigitChar c.toNat] := by
            simp only [escapeChar, if_neg h1, if_neg h2, if_pos h3]
          rw [he]
          simp only [List.cons_append, List.nil_append]
          rw [psb_unicode]
          simp only [isHexChar_hexDigitChar, Bool.and_self, Bool.and_true, if_true]
          have hz : hexVal '0' = 0 := rfl
          have hx : hexVal (hexDigitChar (c.toNat / 16)) = c.toNat / 16 % 16 :=
            hexVal_hexDigitChar _
          have hy : hexVal (hexDigitChar c.toNat) = c.toNat % 16 := hexVal_hexDigitChar _
          rw [hz, hx, hy]
          have hv : 0 * 4096 + 0 * 256 + c.toNat / 16 % 16 * 16 + c.toNat % 16 = c.toNat := by
            have hd : c.toNat / 16 < 16 := by omega
            rw [Nat.mod_eq_of_lt hd]
            omega
          rw [hv]
          rw [if_neg (by omega : ¬ (0xD800 ≤ c.toNat ∧ c.toNat < 0xE000))]
          rw [ih rest, Char.ofNat_toNat]
          simp [show isHexChar '0' = true from rfl]
        · have he : escapeChar c = [c] := by
            simp only [escapeChar, if_neg h1, if_neg h2, if_neg h3]
          rw [he]
          simp only [List.cons_append, List.nil_append]
          rw [psb_plain c h1 h2 h3, ih rest]

/-- The continuation after a serialized number: empty, or a non-digit next. -/
def restStopsDigits : List Char → Bool
  | [] => true
  | c :: _ => !isDigitChar c

theorem natDigitsAux_congr : ∀ (n f1 f2 : Nat), n < f1 → n < f2 →
    natDigitsAux f1 n = natDigitsAux f2 n := by
  intro n
  induction n using Nat.strong_induction_on with
  | _ n ih =>
    intro f1 f2 h1 h2
    cases f1 with
    | zero => omega
    | succ f1 =>
      cases f2 with
      | zero => omega
      | succ f2 =>
        rw [natDigitsAux, natDigitsAux]
        by_cases h : n < 10
        · simp [h]
        · simp only [if_neg h]
          rw [ih (n / 10) (by omega) f1 f2 (by omega) (by omega)]

theorem natDigits_eq (n : Nat) : natDigits n =
    if n < 10 then [digitChar10 n] else natDigits (n / 10) ++ [digitChar10 n] := by
  rw [natDigits, natDigitsAux]
  by_cases h : n < 10
  · simp [h]
  · simp only [if_neg h]
    rw [natDigits, natDigitsAux_congr (n / 10) n (n / 10 + 1) (by omega) (by omega)]

theorem digitChar10_mod (n : Nat) : digitChar10 n = digitChar10 (n % 10) := by
  simp [digitChar10, Nat.mod_mod_of_dvd n dvd_rfl]

theorem isDigitChar_digitChar10 (n : Nat) : isDigitChar (digitChar10 n) = true := by
  rw [digitChar10_mod]
  have h : n % 10 < 10 := Nat.mod_lt _ (by norm_num)
  revert h
  generalize n % 10 = m
  revert m
  decide

theorem digitVal_digitChar10 (n : Nat) : (digitChar10 n).toNat - 48 = n % 10 := by
  rw [digitChar10_mod]
  have h : n % 10 < 10 := Nat.mod_lt _ (by norm_num)
  revert h
  generalize n % 10 = m
  revert m
  decide

theorem isDigitChar_ne_dash (c : Char) (h : isDigitChar c = true) : c ≠ '-' := by
  intro he; subst he; exact absurd h (by decide)

theorem isDigitChar_ne_quote (c : Char) (h : isDigitChar c = true) : c ≠ '"' := by
  intro he; subst he; exact absurd h (by decide)

theorem isDigitChar_ne_zero_char (c : Char) (h : isDigitChar c = true)
    (hv : c.toNat ≠ 48) : c ≠ '0' := by
  intro he; subst he; exact hv rfl

/-- The digit list of `n`, decomposed: nonempty, starting with a digit that is
nonzero when `n ≥ 1`. -/
theorem natDigits_cons (n : Nat) : ∃ c cs, natDigits n = c :: cs ∧
    isDigitChar c = true ∧ (1 ≤ n → c ≠ '0') := by
  induction n using Nat.strong_induction_on with
  | _ n ih =>
    rw [natDigits_eq]
    by_cases h : n < 10
    · refine ⟨digitChar10 n, [], by simp [h], isDigitChar_digitChar10 n, ?_⟩
      intro h1 he
      have : (digitChar10 n).toNat - 48 = n % 10 := digitVal_digitChar10 n
      rw [he] at this
      simp at this
      omega
    · obtain ⟨c, cs, hcons, hdig, hz⟩ := ih (n / 10) (by omega)
      refine ⟨c, cs ++ [digitChar10 n], ?_, hdig, fun _ => hz (by omega)⟩
      simp [h, hcons]

theorem parseDigitsRun_stop (acc : Nat) (rest : List Char)
    (h : restStopsDigits rest = true) : parseDigitsRun acc rest = (acc, rest) := by
  cases rest with
  | nil => rfl
  | cons c l =>
    simp only [restStopsDigits, Bool.not_eq_true'] at h
    rw [parseDigitsRun, if_neg (by simp [h])]

theorem parseDigitsRun_natDigits : ∀ (n acc : Nat) (rest : List Char),
    parseDigitsRun acc (natDigits n ++ rest) =
      parseDigitsRun (acc * 10 ^ (natDigits n).length + n) rest := by
  intro n
  induction n using Nat.strong_induction_on with
  | _ n ih =>
    intro acc rest
    by_cases h : n < 10
    · rw [natDigits_eq, if_pos h]
      simp only [List.singleton_append, List.length_cons, List.length_nil]
      rw [parseDigitsRun, if_pos (by simp [isDigitChar_digitChar10])]
      rw [digitVal_digitChar10, Nat.mod_eq_of_lt h]
      norm_num
    · conv_lhs => rw [natDigits_eq, if_neg h]
      rw [List.append_assoc, List.singleton_append, ih (n / 10) (by omega)]
      rw [parseDigitsRun, if_pos (by simp [isDigitChar_digitChar10])]
      rw [digitVal_digitChar10]
      have hlen : (natDigits n).length = (natDigits (n / 10)).length + 1 := by
        conv_lhs => rw [natDigits_eq, if_neg h]
        simp
      rw [hlen]
      congr 1
      calc (acc * 10 ^ (natDigits (n / 10)).length + n / 10) * 10 + n % 10
          = acc * (10 ^ (natDigits (n / 10)).length * 10) + (n / 10 * 10 + n % 10) := by ring
        _ = acc * 10 ^ ((natDigits (n / 10)).length + 1) + n := by
            rw [pow_succ]
            have hdm : n / 10 * 10 + n % 10 = n := by omega
            rw [hdm]


theorem parseJsonNat_natDigits (n : Nat) (rest : List Char)
    (h : restStopsDigits rest = true) :
    parseJsonNat (natDigits n ++ rest) = some (n, rest) := by
  by_cases h0 : n = 0
  · subst h0
    have hz : natDigits 0 = ['0'] := rfl
    rw [hz, List.singleton_append]
    simp only [parseJsonNat, if_pos rfl]
    cases rest with
    | nil => rfl
    | cons d l =>
      simp only [restStopsDigits, Bool.not_eq_true'] at h
      simp [h]
  · obtain ⟨c, cs, hcons, hdig, hzero⟩ := natDigits_cons n
    have hrun : parseDigitsRun 0 (natDigits n ++ rest) = (n, rest) := by
      rw [parseDigitsRun_natDigits, parseDigitsRun_stop _ _ h]
      simp
    rw [hcons, List.cons_append] at hrun
    rw [parseDigitsRun, if_pos (by simp [hdig])] at hrun
    simp only [Nat.zero_mul, Nat.zero_add] at hrun
    rw [hcons, List.cons_append]
    simp only [parseJsonNat]
    rw [if_neg (hzero (by omega)), if_pos (by simp [hdig]), hrun]

theorem parseJsonInt_intToChars (n : Int) (rest : List Char)
    (h : restStopsDigits rest = true) :
    parseJsonInt (intToChars n ++ rest) = some (n, rest) := by
  by_cases hn : n < 0
  · rw [intToChars, if_pos hn, List.cons_append]
    simp only [parseJsonInt, if_pos rfl, if_true]
    rw [parseJsonNat_natDigits _ _ h]
    simp only [Option.some.injEq, Prod.mk.injEq, and_true]
    omega
  · rw [intToChars, if_neg hn]
    obtain ⟨c, cs, hcons, hdig, _⟩ := natDigits_cons n.toNat
    rw [hcons, List.cons_append]
    simp only [parseJsonInt]
    rw [if_neg (isDigitChar_ne_dash c hdig)]
    rw [← List.cons_append, ← hcons, parseJsonNat_natDigits _ _ h]
    simp only [Option.some.injEq, Prod.mk.injEq, and_true]
    omega

theorem string_mk_data (s : String) : (⟨s.data⟩ : String) = s := rfl

theorem parseJVal_dump (v : JVal) (rest : List Char) (h : restStopsDigits rest = true) :
    parseJVal (dumpJVal v ++ rest) = some (v, rest) := by
  cases v with
  | str s =>
    show parseJVal ((('"' :: (s.data.flatMap escapeChar ++ ['"'])) : List Char) ++ rest) = _
    rw [List.cons_append]
    simp only [parseJVal]
    rw [List.append_assoc, List.singleton_append, parseStringBody_escape]
    simp [string_mk_data]
  | num n =>
    show parseJVal (intToChars n ++ rest) = _
    cases hc : intToChars n with
    | nil =>
      exfalso
      rw [intToChars] at hc
      split at hc
      · simp at hc
      · exact natDigits_cons n.toNat |>.elim fun c h2 =>
          h2.elim fun cs h3 => by rw [h3.1] at hc; simp at hc
    | cons c cs =>
      have hne : c ≠ '"' := by
        rw [intToChars] at hc
        split at hc
        · cases hc; decide
        · obtain ⟨c2, cs2, hcons, hdig, _⟩ := natDigits_cons n.toNat
          rw [hcons] at hc
          cases hc
          exact isDigitChar_ne_quote _ hdig
      have hgoal := parseJsonInt_intToChars n rest h
      rw [hc, List.cons_append] at hgoal
      simp only [List.cons_append, parseJVal]
      rw [if_neg hne, hgoal]

theorem skipWs_not_ws (c : Char) (l : List Char) (h : jsonWs c = false) :
    skipWs (c :: l) = c :: l := by
  simp [skipWs, List.dropWhile_cons, h]

theorem skipWs_space (l : List Char) : skipWs (' ' :: l) = skipWs l := by
  simp [skipWs, List.dropWhile_cons, show jsonWs ' ' = true from rfl]

theorem jsonWs_false_of_digit (c : Char) (h : isDigitChar c = true) : jsonWs c = false := by
  simp only [isDigitChar, Bool.and_eq_true, decide_eq_true_eq] at h
  simp [jsonWs]
  omega

theorem dumpJVal_head (v : JVal) : ∃ c cs, dumpJVal v = c :: cs ∧ jsonWs c = false := by
  cases v with
  | str s => exact ⟨'"', _, rfl, rfl⟩
  | num n =>
    show ∃ c cs, intToChars n = c :: cs ∧ jsonWs c = false
    rw [intToChars]
    by_cases hn : n < 0
    · exact ⟨'-', _, by rw [if_pos hn], rfl⟩
    · obtain ⟨c, cs, hcons, hdig, _⟩ := natDigits_cons n.toNat
      exact ⟨c, cs, by rw [if_neg hn, hcons], jsonWs_false_of_digit c hdig⟩

theorem skipWs_dumpJVal (v : JVal) (t : List Char) :
    skipWs (dumpJVal v ++ t) = dumpJVal v ++ t := by
  obtain ⟨c, cs, hv, hws⟩ := dumpJVal_head v
  rw [hv, List.cons_append, skipWs_not_ws _ _ hws]

theorem skipWs_dumpFields_cons (f : String × JVal) (l : JObj) (t : List Char) :
    skipWs (dumpFields (f :: l) ++ t) = dumpFields (f :: l) ++ t := by
  obtain ⟨k2, v2⟩ := f
  simp only [dumpFields, dumpStr, List.cons_append]
  exact skipWs_not_ws _ _ rfl

theorem restStops_rbrace (rest : List Char) : restStopsDigits (rbrace :: rest) = true := rfl

theorem restStops_comma (rest : List Char) : restStopsDigits (',' :: rest) = true := rfl

theorem parseFieldsAux_dump : ∀ (flds acc : JObj) (fuel : Nat) (rest : List Char),
    flds ≠ [] → flds.length < fuel →
    (∀ k, k ∈ flds.map Prod.fst → (acc.map Prod.fst).contains k = false) →
    (flds.map Prod.fst).Nodup →
    parseFieldsAux fuel (dumpFields flds ++ rbrace :: rest) acc = some (acc ++ flds, rest) := by
  intro flds
  induction flds with
  | nil => intro acc fuel rest hne; exact absurd rfl hne
  | cons kv flds' ih =>
    obtain ⟨k, v⟩ := kv
    intro acc fuel rest _ hfuel hkeys hnodup
    cases fuel with
    | zero => simp at hfuel
    | succ fuel =>
      have hk0 : (acc.map Prod.fst).contains k = false := hkeys k (by simp)
      cases flds' with
      | nil =>
        rw [show dumpFields [(k, v)] = dumpStr k ++ ':' :: ' ' :: (dumpJVal v ++ []) from rfl]
        simp only [dumpStr, List.cons_append, List.append_assoc, List.append_nil,
          List.singleton_append, List.nil_append]
        simp only [parseFieldsAux, if_pos rfl, if_true]
        rw [parseStringBody_escape]
        simp only [string_mk_data, hk0, Bool.false_eq_true, if_false]
        rw [skipWs_not_ws ':' _ rfl]
        simp only [if_pos rfl, if_true]
        rw [skipWs_space, skipWs_dumpJVal, parseJVal_dump v _ (restStops_rbrace rest)]
        simp only [if_true]
        rw [skipWs_not_ws rbrace _ rfl]
        simp [show ¬ rbrace = ',' from by decide]
      | cons f2 flds'' =>
        rw [show dumpFields ((k, v) :: f2 :: flds'') =
          dumpStr k ++ ':' :: ' ' :: (dumpJVal v ++ (',' :: ' ' :: dumpFields (f2 :: flds'')))
          from rfl]
        simp only [dumpStr, List.cons_append, List.append_assoc, List.singleton_append,
          List.nil_append]
        simp only [parseFieldsAux, if_pos rfl, if_true]
        rw [parseStringBody_escape]
        simp only [string_mk_data, hk0, Bool.false_eq_true, if_false]
        rw [skipWs_not_ws ':' _ rfl]
        simp only [if_pos rfl, if_true]
        rw [skipWs_space, skipWs_dumpJVal, parseJVal_dump v _ (restStops_comma _)]
        simp only [if_true]
        rw [skipWs_not_ws ',' _ rfl]
        simp only [if_pos rfl, if_true]
        rw [skipWs_space, skipWs_dumpFields_cons]
        have hmapfst : ((k, v) :: f2 :: flds'').map Prod.fst =
            k :: (f2 :: flds'').map Prod.fst := rfl
        rw [hmapfst] at hnodup
        have hnd := List.nodup_cons.mp hnodup
        rw [ih (acc ++ [(k, v)]) fuel rest (by simp) (by simp at hfuel ⊢; omega)
          ?_ hnd.2]
        · simp
        · intro k2 hk2
          have h1 : (acc.map Prod.fst).contains k2 = false :=
            hkeys k2 (by rw [hmapfst]; exact List.mem_cons_of_mem _ hk2)
          have h2 : k2 ≠ k := fun he => hnd.1 (he ▸ hk2)
          have h3 : k2 ∉ acc.map Prod.fst := by simpa using h1
          simp [h2, h3]

theorem dumpFields_cons_head (f : String × JVal) (l : JObj) :
    ∃ cs, dumpFields (f :: l) = '"' :: cs := by
  obtain ⟨k, v⟩ := f
  exact ⟨_, rfl⟩

theorem dumpFields_length_ge : ∀ flds : JObj, flds.length ≤ (dumpFields flds).length := by
  intro flds
  induction flds with
  | nil => simp [dumpFields]
  | cons f l ih =>
    obtain ⟨k, v⟩ := f
    cases l with
    | nil => simp [dumpFields, dumpStr]
    | cons f2 l2 =>
      rw [show dumpFields ((k, v) :: f2 :: l2) =
        dumpStr k ++ ':' :: ' ' :: (dumpJVal v ++ (',' :: ' ' :: dumpFields (f2 :: l2)))
        from rfl]
      simp only [List.length_append, List.length_cons, List.length_cons, dumpStr,
        List.length_append]
      simp only [List.length_cons] at ih ⊢
      omega

/-- `json.loads` inverts `json.dumps` on flat objects with distinct keys. -/
theorem json_loads_dumps (o : JObj) (h : (o.map Prod.fst).Nodup) :
    json_loads (json_dumps o) = .ok o := by
  rw [json_loads]
  have hdata : (json_dumps o).data = lbrace :: (dumpFields o ++ [rbrace]) := rfl
  rw [hdata]
  simp only [parseObj]
  rw [skipWs_not_ws lbrace _ rfl]
  simp only [if_pos rfl, if_true]
  cases o with
  | nil =>
    rw [show dumpFields [] = ([] : List Char) from rfl]
    simp only [List.nil_append]
    rw [skipWs_not_ws rbrace _ rfl]
    simp only [if_pos rfl, if_true]
    rfl
  | cons f o' =>
    obtain ⟨cs, hcs⟩ := dumpFields_cons_head f o'
    have hsw : skipWs (dumpFields (f :: o') ++ [rbrace]) = dumpFields (f :: o') ++ [rbrace] :=
      skipWs_dumpFields_cons f o' [rbrace]
    rw [hsw, hcs, List.cons_append]
    simp only [if_neg (show ¬ '"' = rbrace from by decide), Bool.false_eq_true, if_false]
    rw [← List.cons_append, ← hcs]
    have hlen := dumpFields_length_ge (f :: o')
    rw [parseFieldsAux_dump (f :: o') [] _ []
      (by simp) (by simp at hlen ⊢; omega) (fun k _ => rfl) h]
    simp [skipWs]

theorem dropWhile_all_append (p : Char → Bool) :
    ∀ (l m : List Char), (∀ c ∈ l, p c = true) →
      List.dropWhile p (l ++ m) = List.dropWhile p m := by
  intro l
  induction l with
  | nil => intro m _; simp
  | cons c t ih =>
    intro m h
    rw [List.cons_append, List.dropWhile_cons, if_pos (h c (List.mem_cons_self _ _))]
    exact ih m fun x hx => h x (List.mem_cons_of_mem _ hx)

/-- `str.strip()` of a serialized object followed by whitespace recovers the
serialized object: the payload starts with `{` and ends with `}`, neither of
which is whitespace. -/
theorem pyStrip_wire (o : JObj) (tail : List Char) (htail : ∀ c ∈ tail, pyWs c = true) :
    pyStrip ⟨(json_dumps o).data ++ tail⟩ = json_dumps o := by
  rw [pyStrip]
  have hdata : (json_dumps o).data = lbrace :: (dumpFields o ++ [rbrace]) := rfl
  rw [hdata]
  rw [List.cons_append, List.dropWhile_cons, if_neg (by decide : ¬ pyWs lbrace = true)]
  rw [show (lbrace :: ((dumpFields o ++ [rbrace]) ++ tail)).reverse =
    tail.reverse ++ ((rbrace :: (dumpFields o).reverse) ++ [lbrace]) by
      simp [List.reverse_cons, List.reverse_append]]
  rw [dropWhile_all_append pyWs _ _ (fun c hc => htail c (List.mem_reverse.mp hc))]
  rw [List.cons_append, List.dropWhile_cons, if_neg (by decide : ¬ pyWs rbrace = true)]
  rw [show (rbrace :: ((dumpFields o).reverse ++ [lbrace])).reverse =
    lbrace :: (dumpFields o ++ [rbrace]) by simp]
  rfl

/-! ### The daemon and its client (`model_server.py`) -/

/-- `str(x)` of a scalar JSON value (as `Exception(response["error"])`
stringifies its argument). -/
def pyStrOfJVal : JVal → String
  | .str s => s
  | .num n => intToString n

/-- `ModelServer._handle_request` as a function of the received request bytes:
`data` is everything the `recv` loop accumulated (it stops at the double
end-of-request marker `"\n\n"` or peer close), `t0`/`t1` are the clock readings
around the engine call, and `engine` is the held `LLMClient`'s
`generate_commit_message`, which may raise (`Except.error`).  The bare
`except` converts *any* exception — malformed JSON and engine failures alike —
into an `{"error": str(e)}` response, so the function is total. -/
def ModelServer.handle_request (engine : JVal → Except String String) (t0 t1 : Int)
    (data : String) : String :=
  match json_loads (pyStrip data) with
  | .error e => json_dumps [("error", .str e)] ++ "\n"
  | .ok req =>
    let diff := (alistGet req "diff").getD (.str "")
    match engine diff with
    | .ok message =>
      json_dumps [("message", .str message), ("elapsed", .num (t1 - t0))] ++ "\n"
    | .error e => json_dumps [("error", .str e)] ++ "\n"

/-- The serve loop of `ModelServer.start`: accept one connection at a time and
handle it.  `_handle_request` catches every exception internally (and the loop
body has its own `except`), so every connection produces exactly one response
and the loop proceeds to the next connection; each connection is modeled as its
received data plus the two clock readings. -/
def ModelServer.serve (engine : JVal → Except String String) :
    List (String × Int × Int) → List String
  | [] => []
  | (data, t0, t1) :: rest =>
    ModelServer.handle_request engine t0 t1 data :: ModelServer.serve engine rest

/-- The bytes `ModelClient.generate_commit_message` sends:
`json.dumps({"diff": diff})` plus the `"\n\n"` end-of-request marker. -/
def ModelClient.request_bytes (diff : String) : String :=
  json_dumps [("diff", .str diff)] ++ "\n\n"

/-- The distinct failure exits of `ModelClient.generate_commit_message`.  In
the source all four are raised `Exception`s; the constructors mark the four
raise sites (socket path missing, `json.loads` failure, `error` field present,
`response["message"]` missing). -/
inductive ClientError where
  | notRunning (msg : String)
  | decodeError (msg : String)
  | serverError (msg : String)
  | missingMessage
deriving Repr, DecidableEq

/-- `ModelClient.generate_commit_message`, as a function of whether the socket
path exists (`is_server_running`) and of the bytes the server sends back (the
`recv` loop accumulates them until a `"\n"` arrives or the peer closes): if the
socket path is absent, raise the "not running" error naming the start command;
otherwise parse `data.decode().strip()`, re-raise an `error` field, and return
`response["message"]`. -/
def ModelClient.generate_commit_message (socketExists : Bool) (responseBytes : String) :
    Except ClientError JVal :=
  if !socketExists then
    .error (.notRunning "Model server not running. Start with: llmcommit-server")
  else
    match json_loads (pyStrip responseBytes) with
    | .error e => .error (.decodeError e)
    | .ok resp =>
      match alistGet resp "error" with
      | some v => .error (.serverError (pyStrOfJVal v))
      | none =>
        match alistGet resp "message" with
        | some v => .ok v
        | none => .error .missingMessage

theorem pyStrip_dumps_marker (o : JObj) (k : Nat) :
    pyStrip (json_dumps o ++ ⟨List.replicate k '\n'⟩) = json_dumps o := by
  have hd : json_dumps o ++ (⟨List.replicate k '\n'⟩ : String) =
      ⟨(json_dumps o).data ++ List.replicate k '\n'⟩ := by
    apply String.ext
    simp [String.data_append]
  rw [hd]
  exact pyStrip_wire o _ (fun c hc => by
    rw [List.eq_of_mem_replicate hc]; rfl)

theorem handle_request_engine_ok (engine : JVal → Except String String) (t0 t1 : Int)
    (diff msg : String) (h : engine (.str diff) = .ok msg) :
    ModelServer.handle_request engine t0 t1 (ModelClient.request_bytes diff) =
      json_dumps [("message", .str msg), ("elapsed", .num (t1 - t0))] ++ "\n" := by
  rw [ModelServer.handle_request, ModelClient.request_bytes]
  rw [show ("\n\n" : String) = ⟨List.replicate 2 '\n'⟩ from rfl]
  rw [pyStrip_dumps_marker, json_loads_dumps _ (by simp)]
  simp [alistGet, h]

theorem client_parses_response_ok (msg : String) (el : Int) :
    ModelClient.generate_commit_message true
      (json_dumps [("message", .str msg), ("elapsed", .num el)] ++ "\n") = .ok (.str msg) := by
  rw [ModelClient.generate_commit_message]
  rw [show ("\n" : String) = ⟨List.replicate 1 '\n'⟩ from rfl]
  rw [pyStrip_dumps_marker, json_loads_dumps _ (by simp)]
  simp [alistGet]

/-- C5.  Per-connection error isolation: every connection gets exactly one
response, which is either an `{"error": ...}` or a `{"message": ..., "elapsed": ...}`
object; a request whose payload does not parse is answered with the
`{"error": ...}` response; the serve loop answers every connection (one
response per connection, in order), and after a malformed request the very
next connection carrying a valid request is served its message — the daemon
never dies of a request-level error. -/
theorem daemon_error_isolation :
    (∀ (engine : JVal → Except String String) (t0 t1 : Int) (data : String),
      (∃ e, ModelServer.handle_request engine t0 t1 data =
          json_dumps [("error", .str e)] ++ "\n") ∨
      (∃ m, ModelServer.handle_request engine t0 t1 data =
          json_dumps [("message", .str m), ("elapsed", .num (t1 - t0))] ++ "\n")) ∧
    (∀ (engine : JVal → Except String String) (t0 t1 : Int) (data e : String),
      json_loads (pyStrip data) = .error e →
      ModelServer.handle_request engine t0 t1 data =
        json_dumps [("error", .str e)] ++ "\n") ∧
    (∀ (engine : JVal → Except String String) (conns : List (String × Int × Int)),
      (ModelServer.serve engine conns).length = conns.length) ∧
    (∀ (engine : JVal → Except String String) (t0 t1 t0' t1' : Int)
        (bad e diff msg : String) (rest : List (String × Int × Int)),
      json_loads (pyStrip bad) = .error e → engine (.str diff) = .ok msg →
      ModelServer.serve engine
          ((bad, t0, t1) :: (ModelClient.request_bytes diff, t0', t1') :: rest) =
        (json_dumps [("error", .str e)] ++ "\n") ::
        (json_dumps [("message", .str msg), ("elapsed", .num (t1' - t0'))] ++ "\n") ::
        ModelServer.serve engine rest) := by
  have hbad : ∀ (engine : JVal → Except String String) (t0 t1 : Int) (data e : String),
      json_loads (pyStrip data) = .error e →
      ModelServer.handle_request engine t0 t1 data =
        json_dumps [("error", .str e)] ++ "\n" := by
    intro engine t0 t1 data e h
    rw [ModelServer.handle_request, h]
  have hok2 : ∀ (engine : JVal → Except String String) (t0 t1 : Int) (data : String)
      (req : JObj), json_loads (pyStrip data) = .ok req →
      ModelServer.handle_request engine t0 t1 data =
        (match engine ((alistGet req "diff").getD (.str "")) with
         | .ok message =>
           json_dumps [("message", .str message), ("elapsed", .num (t1 - t0))] ++ "\n"
         | .error e => json_dumps [("error", .str e)] ++ "\n") := by
    intro engine t0 t1 data req h
    rw [ModelServer.handle_request, h]
  refine ⟨?_, hbad, ?_, ?_⟩
  · intro engine t0 t1 data
    cases hl : json_loads (pyStrip data) with
    | error e => exact Or.inl ⟨e, hbad engine t0 t1 data e hl⟩
    | ok req =>
      rw [hok2 engine t0 t1 data req hl]
      cases he : engine ((alistGet req "diff").getD (.str "")) with
      | ok m => exact Or.inr ⟨m, rfl⟩
      | error e => exact Or.inl ⟨e, rfl⟩
  · intro engine conns
    induction conns with
    | nil => rfl
    | cons c rest ih =>
      obtain ⟨data, t0, t1⟩ := c
      simp [ModelServer.serve, ih]
  · intro engine t0 t1 t0' t1' bad e diff msg rest hb hok
    rw [ModelServer.serve, ModelServer.serve, hbad engine t0 t1 bad e hb,
      handle_request_engine_ok engine t0' t1' diff msg hok]

/-- Witness for C5: a concrete malformed request is answered with the error
response, and the serve loop then answers a concrete valid request. -/
theorem daemon_error_isolation_witness :
    ModelServer.serve (fun _ => .ok "msg") [("bad", 0, 1), (ModelClient.request_bytes "X", 2, 5)] =
      [json_dumps [("error", .str "Expecting value")] ++ "\n",
       json_dumps [("message", .str "msg"), ("elapsed", .num 3)] ++ "\n"] :=
  daemon_error_isolation.2.2.2 (fun _ => .ok "msg") 0 1 2 5 "bad" "Expecting value" "X" "msg"
    [] rfl rfl

/-- C6.  Round trip: when the held engine deterministically answers `msg` for
diff `X` and the clock is monotone, the daemon answers the client's framed
request `{"diff": X}\n\n` with the single newline-terminated JSON response
`{"message": msg, "elapsed": t1 - t0}` with a nonnegative elapsed value, and
the client parsing that response returns `msg`. -/
theorem daemon_round_trip (engine : JVal → Except String String) (t0 t1 : Int)
    (diff msg : String) (hok : engine (.str diff) = .ok msg) (hclock : t0 ≤ t1) :
    ModelServer.handle_request engine t0 t1 (ModelClient.request_bytes diff) =
      json_dumps [("message", .str msg), ("elapsed", .num (t1 - t0))] ++ "\n" ∧
    0 ≤ t1 - t0 ∧
    ModelClient.generate_commit_message true
        (ModelServer.handle_request engine t0 t1 (ModelClient.request_bytes diff)) =
      .ok (.str msg) := by
  refine ⟨handle_request_engine_ok engine t0 t1 diff msg hok, by omega, ?_⟩
  rw [handle_request_engine_ok engine t0 t1 diff msg hok]
  exact client_parses_response_ok msg (t1 - t0)

/-- Witness for C6, with a concrete engine, diff and clock readings. -/
theorem daemon_round_trip_witness :
    ModelClient.generate_commit_message true
        (ModelServer.handle_request (fun _ => .ok "msg") 2 5 (ModelClient.request_bytes "X")) =
      .ok (.str "msg") :=
  (daemon_round_trip (fun _ => .ok "msg") 2 5 "X" "msg" rfl (by omega)).2.2

/-- C7.  The client fails with the "not running" error (naming the start
command) exactly when the socket path is absent: with the path absent that
error is always raised, and with the path present it is never raised — a
parsed response with an `error` field is surfaced as a generation failure
carrying the stringified field, and otherwise the `message` field of the
response is returned. -/
theorem client_error_paths :
    (∀ bytes : String, ModelClient.generate_commit_message false bytes =
        .error (.notRunning "Model server not running. Start with: llmcommit-server")) ∧
    (∀ (bytes : String) (resp : JObj) (v : JVal),
      json_loads (pyStrip bytes) = .ok resp → alistGet resp "error" = some v →
      ModelClient.generate_commit_message true bytes =
        .error (.serverError (pyStrOfJVal v))) ∧
    (∀ (bytes : String) (resp : JObj) (v : JVal),
      json_loads (pyStrip bytes) = .ok resp → alistGet resp "error" = none →
      alistGet resp "message" = some v →
      ModelClient.generate_commit_message true bytes = .ok v) ∧
    (∀ (bytes : String) (err : ClientError) (m : String),
      ModelClient.generate_commit_message true bytes = .error err →
      err ≠ .notRunning m) := by
  refine ⟨fun _ => rfl, ?_, ?_, ?_⟩
  · intro bytes resp v h1 h2
    rw [ModelClient.generate_commit_message]
    simp only [Bool.not_true, Bool.false_eq_true, if_false, h1, h2]
  · intro bytes resp v h1 h2 h3
    rw [ModelClient.generate_commit_message]
    simp only [Bool.not_true, Bool.false_eq_true, if_false, h1, h2, h3]
  · intro bytes err m h
    intro he
    subst he
    rw [ModelClient.generate_commit_message] at h
    simp only [Bool.not_true, Bool.false_eq_true, if_false] at h
    split at h
    · simp at h
    · split at h
      · simp at h
      · split at h
        · simp at h
        · simp at h

/-- Witness for C7 at concrete response bytes: the three observable outcomes. -/
theorem client_error_paths_witness :
    ModelClient.generate_commit_message false "" =
      .error (.notRunning "Model server not running. Start with: llmcommit-server") ∧
    ModelClient.generate_commit_message true (json_dumps [("error", .str "boom")] ++ "\n") =
      .error (.serverError "boom") ∧
    ModelClient.generate_commit_message true
        (json_dumps [("message", .str "hi"), ("elapsed", .num 1)] ++ "\n") =
      .ok (.str "hi") :=
  ⟨client_error_paths.1 "",
   client_error_paths.2.1 _ [("error", .str "boom")] (.str "boom") rfl rfl,
   client_error_paths.2.2.1 _ [("message", .str "hi"), ("elapsed", .num 1)] (.str "hi")
     rfl rfl rfl⟩

/-! ### Daemon supervision (`start_server_daemon` / `stop_server_daemon`) -/

/-- Nonempty all-digit character list. -/
def digitsOnly (l : List Char) : Bool := !l.isEmpty && l.all isDigitChar

/-- `int()` on a character list: optional sign, then at least one digit. -/
def pyIntChars (l : List Char) : Option Int :=
  match l with
  | [] => none
  | c :: ds =>
    if c = '-' then
      if digitsOnly ds then some (-((parseDigitsRun 0 ds).1 : Int)) else none
    else if c = '+' then
      if digitsOnly ds then some (((parseDigitsRun 0 ds).1 : Int)) else none
    else if digitsOnly (c :: ds) then some (((parseDigitsRun 0 (c :: ds)).1 : Int))
    else none

/-- `int(s)` as the supervisor uses it on the PID file text: strip whitespace,
optional sign, digits; a `ValueError` is `none`. -/
def pyInt (s : String) : Option Int := pyIntChars (pyStrip s).data

theorem pyWs_false_of_digit (c : Char) (h : isDigitChar c = true) : pyWs c = false := by
  simp only [isDigitChar, Bool.and_eq_true, decide_eq_true_eq] at h
  simp [pyWs]
  omega

theorem natDigits_all_digits : ∀ n : Nat, ∀ c ∈ natDigits n, isDigitChar c = true := by
  intro n
  induction n using Nat.strong_induction_on with
  | _ n ih =>
    intro c hc
    rw [natDigits_eq] at hc
    by_cases h : n < 10
    · rw [if_pos h] at hc
      simp at hc
      rw [hc]
      exact isDigitChar_digitChar10 n
    · rw [if_neg h] at hc
      rcases List.mem_append.mp hc with h2 | h2
      · exact ih (n / 10) (by omega) c h2
      · simp at h2
        rw [h2]
        exact isDigitChar_digitChar10 n

theorem dropWhile_eq_self_of_all_false (p : Char → Bool) (l : List Char)
    (h : ∀ c ∈ l, p c = false) : List.dropWhile p l = l := by
  cases l with
  | nil => rfl
  | cons c t => rw [List.dropWhile_cons, if_neg (by simp [h c (List.mem_cons_self _ _)])]

theorem pyStrip_no_ws (l : List Char) (h : ∀ c ∈ l, pyWs c = false) :
    pyStrip ⟨l⟩ = ⟨l⟩ := by
  rw [pyStrip]
  show (⟨((List.dropWhile pyWs l).reverse.dropWhile pyWs).reverse⟩ : String) = _
  rw [dropWhile_eq_self_of_all_false pyWs l h]
  rw [dropWhile_eq_self_of_all_false pyWs l.reverse
    (fun c hc => h c (List.mem_reverse.mp hc))]
  rw [List.reverse_reverse]

theorem isDigitChar_ne_plus (c : Char) (h : isDigitChar c = true) : c ≠ '+' := by
  intro he; subst he; exact absurd h (by decide)

theorem pyInt_natDigits (n : Nat) : pyInt ⟨natDigits n⟩ = some (n : Int) := by
  rw [pyInt, pyStrip_no_ws _ (fun c hc => pyWs_false_of_digit c (natDigits_all_digits n c hc))]
  obtain ⟨c, cs, hcons, hdig, _⟩ := natDigits_cons n
  show pyIntChars (natDigits n) = some (n : Int)
  have hrun : (parseDigitsRun 0 (natDigits n)).1 = n := by
    have h0 := parseDigitsRun_natDigits n 0 []
    rw [List.append_nil] at h0
    rw [h0, parseDigitsRun_stop _ [] rfl]
    simp
  have hdo : digitsOnly (natDigits n) = true := by
    rw [digitsOnly, hcons]
    simp only [List.isEmpty_cons, Bool.not_false, Bool.true_and]
    rw [List.all_eq_true]
    intro c2 hc2
    exact natDigits_all_digits n c2 (hcons ▸ hc2)
  rw [hcons]
  simp only [pyIntChars]
  rw [if_neg (isDigitChar_ne_dash c hdig), if_neg (isDigitChar_ne_plus c hdig)]
  rw [← hcons, if_pos hdo, hrun]

theorem pyInt_intToString_nonneg (n : Int) (h : 0 ≤ n) : pyInt (intToString n) = some n := by
  rw [intToString, intToChars, if_neg (not_lt.mpr h), pyInt_natDigits]
  congr 1
  omega

/-- The operating-system state the supervisor manipulates: the contents of
`~/.llmcommit/server.pid` (if the file exists), the set of live process ids
(an `os.kill(pid, 0)` probe succeeds exactly for these), and whether the
socket file `/tmp/llmcommit.sock` exists. -/
structure SupervisorState where
  pid_file : Option String
  alive : List Int
  socket_file : Bool
deriving Repr, DecidableEq

/-- `start_server_daemon`: if the PID file exists, parse it (`int` may raise
`ValueError`) and probe the process (`os.kill(pid, 0)` raises `OSError` when
it is dead); a live process means "Server already running" and nothing else
happens.  Otherwise (no file, unparsable file, or stale file, which is
unlinked) fork: the child (fresh process id `freshPid`) runs the server, the
parent records the child pid in the PID file and reports the start. -/
def start_server_daemon (st : SupervisorState) (freshPid : Int) : SupervisorState × String :=
  match st.pid_file with
  | some content =>
    match pyInt content with
    | some pid =>
      if st.alive.contains pid then (st, "Server already running")
      else
        ({ pid_file := some (intToString freshPid), alive := freshPid :: st.alive,
           socket_file := st.socket_file }, "Server started")
    | none =>
      ({ pid_file := some (intToString freshPid), alive := freshPid :: st.alive,
         socket_file := st.socket_file }, "Server started")
  | none =>
    ({ pid_file := some (intToString freshPid), alive := freshPid :: st.alive,
       socket_file := st.socket_file }, "Server started")

/-- `stop_server_daemon`: no PID file means "Server not running" and an
immediate return; otherwise parse the file and send `SIGTERM` — on success the
process terminates and the PID file and socket file are removed; an exception
(`ValueError` or a dead process) is caught and reported as an error without
unlinking. -/
def stop_server_daemon (st : SupervisorState) : SupervisorState × String :=
  match st.pid_file with
  | none => (st, "Server not running")
  | some content =>
    match pyInt content with
    | some pid =>
      if st.alive.contains pid then
        ({ pid_file := none, alive := st.alive.filter (fun q => q != pid),
           socket_file := false }, "Server stopped")
      else (st, "Error stopping server")
    | none => (st, "Error stopping server")

/-- C9.  Supervisor lifecycle idempotence: a PID file recording a live process
makes `start` report "already running" and change nothing; two consecutive
`start` calls from a clean state leave exactly one daemon process alive (the
second call reports "already running"); `stop` without a PID file reports
"not running" and returns the state unchanged. -/
theorem supervisor_idempotence :
    (∀ (st : SupervisorState) (content : String) (pid freshPid : Int),
      st.pid_file = some content → pyInt content = some pid →
      st.alive.contains pid = true →
      start_server_daemon st freshPid = (st, "Server already running")) ∧
    (∀ p1 p2 : Nat,
      (start_server_daemon (start_server_daemon ⟨none, [], false⟩ (p1 : Int)).1 (p2 : Int)).2 =
        "Server already running" ∧
      (start_server_daemon (start_server_daemon ⟨none, [], false⟩ (p1 : Int)).1 (p2 : Int)).1.alive =
        [(p1 : Int)]) ∧
    (∀ st : SupervisorState, st.pid_file = none →
      stop_server_daemon st = (st, "Server not running")) := by
  refine ⟨?_, ?_, ?_⟩
  · intro st content pid freshPid h1 h2 h3
    rw [start_server_daemon, h1]
    simp only [h2, h3, if_true]
  · intro p1 p2
    have hs1 : start_server_daemon ⟨none, [], false⟩ (p1 : Int) =
        (⟨some (intToString (p1 : Int)), [(p1 : Int)], false⟩, "Server started") := rfl
    rw [hs1]
    have hs2 : start_server_daemon ⟨some (intToString (p1 : Int)), [(p1 : Int)], false⟩
        (p2 : Int) = (⟨some (intToString (p1 : Int)), [(p1 : Int)], false⟩,
          "Server already running") := by
      simp [start_server_daemon,
        pyInt_intToString_nonneg (p1 : Int) (by omega : (0 : Int) ≤ (p1 : Int))]
    rw [hs2]
    exact ⟨rfl, rfl⟩
  · intro st h
    rw [stop_server_daemon, h]

/-- Witness for C9 at a concrete state: PID file `"5"` with process 5 alive. -/
theorem supervisor_idempotence_witness :
    start_server_daemon ⟨some "5", [5], false⟩ 9 = (⟨some "5", [5], false⟩,
      "Server already running") ∧
    stop_server_daemon ⟨none, [7], true⟩ = (⟨none, [7], true⟩, "Server not running") :=
  ⟨supervisor_idempotence.1 ⟨some "5", [5], false⟩ "5" 5 9 rfl rfl rfl,
   supervisor_idempotence.2.2 ⟨none, [7], true⟩ rfl⟩
